import Mathlib

/-!
Shallow embedding of the eh-dynamodb event store (src/eventstore.go, src/repo.go).

The DynamoDB table is modelled as a list of records with unique
`(AggregateID, Version)` keys; the collaborator's conditional put / update /
query primitives are modelled by their documented semantics.  Event payloads
(`eh.EventData`, Go struct values) are modelled by the mutual inductives
`PVal`/`PFields`; the generic attribute encoding
(`dynamodbattribute.MarshalMap` / `UnmarshalMap`) is modelled by
`marshalFields` / `unmarshalFields` over `AttrValue` maps, and the payload
type registry (`eh.CreateEventData`) by a map from type tag to a struct
shape (`SFields`).
-/

mutual

/-- A Go payload value: scalar fields, nested struct values, or a value the
generic attribute encoding cannot represent (`punsup`). -/
inductive PVal where
  | pstr (s : String)
  | pint (n : Int)
  | pbool (b : Bool)
  | pstruct (fields : PFields)
  | punsup
deriving DecidableEq

/-- The named fields of a Go struct payload value. -/
inductive PFields where
  | fnil
  | fcons (name : String) (v : PVal) (rest : PFields)
deriving DecidableEq
end

mutual

/-- A Go payload type shape (what a registered constructor builds). -/
inductive PShape where
  | sstr
  | sint
  | sbool
  | sstruct (fields : SFields)
deriving DecidableEq

/-- The named fields of a struct shape. -/
inductive SFields where
  | snil
  | scons (name : String) (sh : PShape) (rest : SFields)
deriving DecidableEq
end

/-- A DynamoDB attribute value (the store's self-describing generic encoding). -/
inductive AttrValue where
  | avS (s : String)
  | avN (n : Int)
  | avBOOL (b : Bool)
  | avM (m : List (String × AttrValue))

/-- A DynamoDB attribute map (`map[string]*dynamodb.AttributeValue`). -/
abbrev AttrMap := List (String × AttrValue)

mutual

/-- `dynamodbattribute` marshaling of one value; fails on unsupported kinds. -/
def marshalVal : PVal → Option AttrValue
  | .pstr s => some (.avS s)
  | .pint n => some (.avN n)
  | .pbool b => some (.avBOOL b)
  | .pstruct fs => (marshalFields fs).map .avM
  | .punsup => none

/-- `dynamodbattribute.MarshalMap` of a struct value's fields. -/
def marshalFields : PFields → Option AttrMap
  | .fnil => some []
  | .fcons k v rest =>
    match marshalVal v with
    | none => none
    | some a =>
      match marshalFields rest with
      | none => none
      | some m => some ((k, a) :: m)

end

mutual

/-- The shape of a payload value (`punsup` is given a junk shape; it is never
marshalable, so its shape is never consulted). -/
def shapeOfV : PVal → PShape
  | .pstr _ => .sstr
  | .pint _ => .sint
  | .pbool _ => .sbool
  | .pstruct fs => .sstruct (shapeOfF fs)
  | .punsup => .sstr

/-- The shape of a struct value's fields. -/
def shapeOfF : PFields → SFields
  | .fnil => .snil
  | .fcons k v rest => .scons k (shapeOfV v) (shapeOfF rest)

end

/-- Does a field name occur in a struct value's fields? -/
def keyMemF (k : String) : PFields → Bool
  | .fnil => false
  | .fcons k' _ rest => k == k' || keyMemF k rest

mutual

/-- A payload value the generic encoding can represent faithfully: no
unsupported values, and (as for any Go struct) no duplicate field names. -/
def representableV : PVal → Bool
  | .pstr _ => true
  | .pint _ => true
  | .pbool _ => true
  | .pstruct fs => representableF fs
  | .punsup => false

/-- Representability of a struct value's fields. -/
def representableF : PFields → Bool
  | .fnil => true
  | .fcons k v rest => !keyMemF k rest && representableV v && representableF rest

end

mutual

/-- The zero value of a shape (a fresh instance from a registered constructor,
before any field is decoded into it). -/
def zeroVal : PShape → PVal
  | .sstr => .pstr ""
  | .sint => .pint 0
  | .sbool => .pbool false
  | .sstruct fs => .pstruct (zeroFields fs)

/-- Zero values of a struct shape's fields. -/
def zeroFields : SFields → PFields
  | .snil => .fnil
  | .scons k sh rest => .fcons k (zeroVal sh) (zeroFields rest)

end

/-- Attribute-map lookup by field name (first match). -/
def lookupAttr (k : String) : AttrMap → Option AttrValue
  | [] => none
  | (k', a) :: rest => if k == k' then some a else lookupAttr k rest

mutual

/-- `dynamodbattribute` decoding of one attribute value into a shape;
fails if the stored value does not match the shape. -/
def unmarshalVal : PShape → AttrValue → Option PVal
  | .sstr, .avS s => some (.pstr s)
  | .sint, .avN n => some (.pint n)
  | .sbool, .avBOOL b => some (.pbool b)
  | .sstruct sfs, .avM m => (unmarshalFields sfs m).map .pstruct
  | _, _ => none

/-- `dynamodbattribute.UnmarshalMap` into a struct shape: each struct field
takes its decoded map entry when present and its zero value when absent;
map entries with no matching field are ignored. -/
def unmarshalFields : SFields → AttrMap → Option PFields
  | .snil, _ => some .fnil
  | .scons k sh rest, m =>
    match lookupAttr k m with
    | some a =>
      match unmarshalVal sh a with
      | none => none
      | some v => (unmarshalFields rest m).map (.fcons k v)
    | none => (unmarshalFields rest m).map (.fcons k (zeroVal sh))

end

theorem lookupAttr_cons_ne (k k' : String) (a : AttrValue) (m : AttrMap)
    (h : k ≠ k') : lookupAttr k ((k', a) :: m) = lookupAttr k m := by
  simp [lookupAttr, h]

mutual

/-- Round trip for one representable value. -/
theorem roundtrip_val : (v : PVal) → representableV v = true →
    ∃ a, marshalVal v = some a ∧ unmarshalVal (shapeOfV v) a = some v
  | .pstr s, _ => ⟨.avS s, rfl, rfl⟩
  | .pint n, _ => ⟨.avN n, rfl, rfl⟩
  | .pbool b, _ => ⟨.avBOOL b, rfl, rfl⟩
  | .pstruct fs, h => by
    obtain ⟨m, hm, hu⟩ := roundtrip_fields fs h
    exact ⟨.avM m, by simp [marshalVal, hm], by simp [unmarshalVal, shapeOfV, hu m fun _ _ => rfl]⟩

/-- Round trip for representable struct fields, generalized over any
attribute map agreeing with the marshaled one on the struct's field names. -/
theorem roundtrip_fields : (fs : PFields) → representableF fs = true →
    ∃ mm, marshalFields fs = some mm ∧
      ∀ m, (∀ k, keyMemF k fs = true → lookupAttr k m = lookupAttr k mm) →
        unmarshalFields (shapeOfF fs) m = some fs
  | .fnil, _ => ⟨[], rfl, fun _ _ => rfl⟩
  | .fcons k v rest, h => by
    rw [representableF, Bool.and_eq_true, Bool.and_eq_true, Bool.not_eq_true'] at h
    obtain ⟨⟨h1, h2⟩, h3⟩ := h
    obtain ⟨a, hma, hua⟩ := roundtrip_val v h2
    obtain ⟨mm, hmm, humm⟩ := roundtrip_fields rest h3
    refine ⟨(k, a) :: mm, ?_, ?_⟩
    · simp [marshalFields, hma, hmm]
    · intro m hagree
      have hk : lookupAttr k m = some a := by
        have := hagree k (by simp [keyMemF])
        simpa [lookupAttr] using this
      have hrest : unmarshalFields (shapeOfF rest) m = some rest := by
        refine humm m fun k' hk' => ?_
        have hne : k' ≠ k := by
          intro he; subst he; exact absurd hk' (by simp [h1])
        have := hagree k' (by simp [keyMemF, hk'])
        rw [this, lookupAttr_cons_ne k' k a mm hne]
      simp [shapeOfF, unmarshalFields, hk, hua, hrest]

end

/-! ## Events, records, and errors -/

/-- A domain event through the accessors of the `eventhorizon.Event`
interface (`event` in src/eventstore.go lines 383-425): type tag, optional
payload, timestamp, aggregate type, aggregate id, version, metadata. -/
structure Event where
  eventType : String
  data : Option PFields
  timestamp : Int
  aggregateType : String
  aggregateID : String
  version : Int
  metadata : List (String × String)
deriving DecidableEq

/-- `dbEvent` (src/eventstore.go lines 342-352): the durable record, hash key
`AggregateID`, range key `Version`; `data` is the non-exported decoded
payload, absent on every stored record. -/
structure DBEvent where
  aggregateID : String
  version : Int
  eventType : String
  rawData : Option AttrMap
  data : Option PFields
  timestamp : Int
  aggregateType : String
  metadata : List (String × String)

/-- The caller's context, carrying the tenant namespace
(`eh.NamespaceFromContext`). -/
structure Ctx where
  ns : String
deriving DecidableEq

/-- An error produced by the DynamoDB collaborator (`awserr.RequestFailure`
with a code, the `dynamo` library's not-found error, or the attribute
codec's marshal/unmarshal failures). -/
inductive DynError where
  | requestFailure (code : String) (msg : String)
  | notFound
  | marshalError
  | unmarshalError
  | otherErr (msg : String)
deriving DecidableEq

/-- The `Err` field of an `eh.EventStoreError`: one of the package's sentinel
errors, or the underlying collaborator error passed through unchanged. -/
inductive ErrKind where
  | noEventsToAppend
  | invalidEvent
  | incorrectEventVersion
  | couldNotMarshalEvent
  | couldNotUnmarshalEvent
  | couldNotSaveAggregate
  | aggregateNotFound
  | wrapped (e : DynError)
deriving DecidableEq

/-- `eh.EventStoreError`: error kind, optional underlying error, namespace. -/
structure EventStoreError where
  err : ErrKind
  baseErr : Option DynError
  ns : String
deriving DecidableEq

/-- Any error value an event-store operation returns to the caller: an
`eh.EventStoreError`, a bare sentinel (as `Replace` returns
`eh.ErrAggregateNotFound` / `eh.ErrInvalidEvent` directly), or an
`eh.CouldNotHandleEventError`. -/
inductive StoreErr where
  | storeErr (e : EventStoreError)
  | sentinel (k : ErrKind)
  | couldNotHandle (msg : String) (ev : Event) (ns : String)
deriving DecidableEq

/-- The namespace an error value carries, if any: bare sentinels carry none. -/
def carriesNamespace : StoreErr → Option String
  | .storeErr e => some e.ns
  | .sentinel _ => none
  | .couldNotHandle _ _ n => some n

/-- The `Err` kind of an `eh.EventStoreError`, if the error is one. -/
def storeErrKind : StoreErr → Option ErrKind
  | .storeErr e => some e.err
  | _ => none

/-- `newDBEvent` (src/eventstore.go lines 355-379): marshal the payload when
present, fail with `ErrCouldNotMarshalEvent`, else build the record. -/
def newDBEvent (ctx : Ctx) (ev : Event) : Except StoreErr DBEvent :=
  match ev.data with
  | none =>
    .ok ⟨ev.aggregateID, ev.version, ev.eventType, none, none,
      ev.timestamp, ev.aggregateType, ev.metadata⟩
  | some d =>
    match marshalFields d with
    | none => .error (.storeErr ⟨.couldNotMarshalEvent, some .marshalError, ctx.ns⟩)
    | some m =>
      .ok ⟨ev.aggregateID, ev.version, ev.eventType, some m, none,
        ev.timestamp, ev.aggregateType, ev.metadata⟩

/-- The record `newDBEvent` builds when marshaling succeeds. -/
def encodeOk (ev : Event) : DBEvent :=
  ⟨ev.aggregateID, ev.version, ev.eventType, ev.data.bind marshalFields, none,
    ev.timestamp, ev.aggregateType, ev.metadata⟩

/-- The event's payload, when present, is representable, so `newDBEvent`
succeeds on it. -/
def marshalable (ev : Event) : Prop :=
  ∀ d, ev.data = some d → representableF d = true

/-- The payload constructor registry (`eh.CreateEventData`): type tag to the
struct shape the registered constructor builds. -/
abbrev Registry := String → Option SFields

/-- The event agrees with the registry: a payload-carrying event's tag is
registered with exactly its payload's shape, and a payload-less event's tag
is unregistered. -/
def compatible (reg : Registry) (ev : Event) : Prop :=
  match ev.data with
  | none => reg ev.eventType = none
  | some d => representableF d = true ∧ reg ev.eventType = some (shapeOfF d)

theorem newDBEvent_ok (ctx : Ctx) (ev : Event) (h : marshalable ev) :
    newDBEvent ctx ev = .ok (encodeOk ev) := by
  unfold newDBEvent encodeOk
  cases hd : ev.data with
  | none => simp
  | some d =>
    obtain ⟨m, hm, -⟩ := roundtrip_fields d (h d hd)
    simp [hm]

/-! ## The store state and the conditional write gate -/

/-- The backing table: a list of records; DynamoDB guarantees at most one
record per `(AggregateID, Version)` key. -/
abbrev Store := List DBEvent

/-- Does the record sit at the given `(AggregateID, Version)` key? -/
def atKey (r : DBEvent) (id : String) (v : Int) : Bool :=
  r.aggregateID == id && r.version == v

/-- Is the `(AggregateID, Version)` slot occupied? -/
def occupied (st : Store) (id : String) (v : Int) : Bool :=
  st.any (atKey · id v)

/-- The `ConditionalCheckFailedException` request failure DynamoDB returns
when a conditional write's precondition does not hold. -/
def condCheckFailed : DynError :=
  .requestFailure "ConditionalCheckFailedException" "The conditional request failed"

/-- The check at src/eventstore.go lines 147 and 263: the error is an
`awserr.RequestFailure` whose code is `ConditionalCheckFailedException`. -/
def isCondCheckFailed : DynError → Bool
  | .requestFailure code _ => code == "ConditionalCheckFailedException"
  | _ => false

/-- `table.Put(e).If("attribute_not_exists(AggregateID) AND
attribute_not_exists(Version)").Run()` (line 146): append only when the
record's key slot is empty. -/
def putIfAbsent (st : Store) (r : DBEvent) : Except DynError Store :=
  if occupied st r.aggregateID r.version then .error condCheckFailed
  else .ok (st ++ [r])

/-- `table.Put(e).If("attribute_exists(AggregateID) AND
attribute_exists(Version)").Run()` (line 262): overwrite only when the
record's key slot is occupied. -/
def putIfPresent (st : Store) (r : DBEvent) : Except DynError Store :=
  if occupied st r.aggregateID r.version then
    .ok (st.map fun x => if atKey x r.aggregateID r.version then r else x)
  else .error condCheckFailed

/-- The error translation of `Save`'s put (src/eventstore.go lines 146-159):
a conditional-check failure becomes `ErrCouldNotSaveAggregate`; any other
failure is passed through as the `Err` itself, both wrapped with the
namespace and base error. -/
def savePutError (n : String) (e : DynError) : StoreErr :=
  if isCondCheckFailed e then .storeErr ⟨.couldNotSaveAggregate, some e, n⟩
  else .storeErr ⟨.wrapped e, some e, n⟩

/-! ## The event store operations -/

/-- The `EventStore` configuration the claims depend on: the payload
registry used by decoding, and the optional downstream event handler
(`WithEventHandler`); the handler returns an error message or nil. -/
structure EventStore where
  reg : Registry
  handler : Option (Event → Option String)

/-- The per-event loop of `Save` (src/eventstore.go lines 118-160): validate
the event's aggregate id, validate its version against the incrementing
counter, encode it, then conditionally append it — returning the first error
and the store as written so far. -/
def saveLoop (ctx : Ctx) (aggregateID : String) : Int → Store → List Event →
    Option StoreErr × Store
  | _, st, [] => (none, st)
  | version, st, ev :: rest =>
    if ev.aggregateID ≠ aggregateID then
      (some (.storeErr ⟨.invalidEvent, none, ctx.ns⟩), st)
    else if ev.version ≠ version + 1 then
      (some (.storeErr ⟨.incorrectEventVersion, none, ctx.ns⟩), st)
    else
      match newDBEvent ctx ev with
      | .error e => (some e, st)
      | .ok dbe =>
        match putIfAbsent st dbe with
        | .error e => (some (savePutError ctx.ns e), st)
        | .ok st' => saveLoop ctx aggregateID (version + 1) st' rest

/-- The handler loop of `Save` (src/eventstore.go lines 164-174): call the
handler once per event in order, stopping at the first failure. -/
def handlerLoop (ctx : Ctx) (h : Event → Option String) : List Event → Option StoreErr
  | [] => none
  | ev :: rest =>
    match h ev with
    | some msg => some (.couldNotHandle msg ev ctx.ns)
    | none => handlerLoop ctx h rest

/-- `EventStore.Save` (src/eventstore.go lines 105-177): reject an empty
batch, take the aggregate id from the first event, run the validate-encode-
append loop, then on full success run the optional downstream handler. -/
def save (es : EventStore) (ctx : Ctx) (st : Store) (events : List Event)
    (originalVersion : Int) : Option StoreErr × Store :=
  match events with
  | [] => (some (.storeErr ⟨.noEventsToAppend, none, ctx.ns⟩), st)
  | e0 :: _ =>
    match saveLoop ctx e0.aggregateID originalVersion st events with
    | (some err, st') => (some err, st')
    | (none, st') =>
      match es.handler with
      | none => (none, st')
      | some h => (handlerLoop ctx h events, st')

/-- The decode step of `buildEvents` for one record (src/eventstore.go lines
217-235): if the tag has a registered constructor, unmarshal the raw payload
into a fresh instance — failing the load on a mismatch — and zero the raw
data; otherwise keep the record as loaded.  `dynamodbattribute.UnmarshalMap`
(aws-sdk-go v1.34.28) treats a nil attribute map as one that sets no fields:
it returns a nil error and leaves the fresh instance zero-valued, which
`r.rawData.getD []` models, since decoding the empty map zero-fills every
field. -/
def decodeDBEvent (reg : Registry) (ctx : Ctx) (r : DBEvent) :
    Except StoreErr DBEvent :=
  match reg r.eventType with
  | none => .ok r
  | some sfs =>
    match unmarshalFields sfs (r.rawData.getD []) with
    | none => .error (.storeErr ⟨.couldNotUnmarshalEvent, some .unmarshalError, ctx.ns⟩)
    | some d => .ok { r with rawData := none, data := some d }

/-- The event the store hands back for a record: the `event` wrapper's
accessors (src/eventstore.go lines 383-425). -/
def toEvent (r : DBEvent) : Event :=
  ⟨r.eventType, r.data, r.timestamp, r.aggregateType, r.aggregateID,
    r.version, r.metadata⟩

/-- `EventStore.buildEvents` (src/eventstore.go lines 215-239): decode each
record in order, returning the first decode error. -/
def buildEvents (reg : Registry) (ctx : Ctx) : List DBEvent →
    Except StoreErr (List Event)
  | [] => .ok []
  | r :: rest =>
    match decodeDBEvent reg ctx r with
    | .error e => .error e
    | .ok r' =>
      match buildEvents reg ctx rest with
      | .error e => .error e
      | .ok evs => .ok (toEvent r' :: evs)

/-- Insert a record into a version-sorted list (DynamoDB returns a
partition's items ascending by range key). -/
def insertByVer (r : DBEvent) : List DBEvent → List DBEvent
  | [] => [r]
  | x :: xs => if r.version ≤ x.version then r :: x :: xs else x :: insertByVer r xs

/-- Sort records ascending by version. -/
def sortByVer : List DBEvent → List DBEvent
  | [] => []
  | x :: xs => insertByVer x (sortByVer xs)

/-- `table.Get("AggregateID", id).Consistent(true).All(...)` (line 184): all
records of one partition, ascending by the `Version` range key. -/
def queryByID (st : Store) (id : String) : List DBEvent :=
  sortByVer (st.filter (·.aggregateID == id))

/-- `EventStore.Load` (src/eventstore.go lines 180-196): query the
aggregate's partition and decode. -/
def load (es : EventStore) (ctx : Ctx) (st : Store) (id : String) :
    Except StoreErr (List Event) :=
  buildEvents es.reg ctx (queryByID st id)

/-- `EventStore.LoadAll` (src/eventstore.go lines 199-213): scan the whole
table and decode. -/
def loadAll (es : EventStore) (ctx : Ctx) (st : Store) :
    Except StoreErr (List Event) :=
  buildEvents es.reg ctx st

/-- `table.Get("AggregateID", id).Consistent(true).Count()` (line 245). -/
def countByID (st : Store) (id : String) : Nat :=
  (st.filter (·.aggregateID == id)).length

/-- `EventStore.Replace` (src/eventstore.go lines 242-274): fail with the
bare sentinel `eh.ErrAggregateNotFound` when the aggregate's partition is
empty; otherwise encode and conditionally overwrite the record's slot,
translating a conditional-check failure into the bare sentinel
`eh.ErrInvalidEvent` and any other put failure into an `EventStoreError`. -/
def replace (ctx : Ctx) (st : Store) (ev : Event) : Option StoreErr × Store :=
  if countByID st ev.aggregateID = 0 then
    (some (.sentinel .aggregateNotFound), st)
  else
    match newDBEvent ctx ev with
    | .error e => (some e, st)
    | .ok dbe =>
      match putIfPresent st dbe with
      | .error e =>
        if isCondCheckFailed e then (some (.sentinel .invalidEvent), st)
        else (some (.storeErr ⟨.wrapped e, some e, ctx.ns⟩), st)
      | .ok st' => (none, st')

/-- `table.Update("AggregateID", id).Range("Version", v).If("EventType = ?",
fromT).Set("EventType", toT).Run()` (line 291): conditionally retag the
record at one key; the condition fails when no record at the key still
carries `fromT`. -/
def updateTagIf (st : Store) (id : String) (v : Int) (fromT toT : String) :
    Except DynError Store :=
  if st.any fun r => atKey r id v && r.eventType == fromT then
    .ok (st.map fun r => if atKey r id v then { r with eventType := toT } else r)
  else .error condCheckFailed

/-- The update loop of `RenameEvent` (src/eventstore.go lines 290-298),
also counting the update writes issued. -/
def renameLoop (ctx : Ctx) (fromT toT : String) : Store → List DBEvent →
    Option StoreErr × Store × Nat
  | st, [] => (none, st, 0)
  | st, m :: ms =>
    match updateTagIf st m.aggregateID m.version fromT toT with
    | .error e => (some (.storeErr ⟨.wrapped e, some e, ctx.ns⟩), st, 1)
    | .ok st' =>
      let out := renameLoop ctx fromT toT st' ms
      (out.1, out.2.1, out.2.2 + 1)

/-- `EventStore.RenameEvent` (src/eventstore.go lines 277-301): scan for the
records tagged `fromT`, then conditionally retag each scanned key. -/
def renameEvent (ctx : Ctx) (st : Store) (fromT toT : String) :
    Option StoreErr × Store × Nat :=
  renameLoop ctx fromT toT st (st.filter (·.eventType == fromT))

/-! ## The read-model repository -/

/-- A read-model entity (identified row of the repository's table). -/
structure Entity where
  id : String
deriving DecidableEq

/-- The `Err` field of an `eh.RepoError`. -/
inductive RepoErrKind where
  | modelNotSet
  | entityNotFound
  | couldNotSaveEntity
deriving DecidableEq

/-- `eh.RepoError`: error kind, optional underlying error, namespace. -/
structure RepoError where
  err : RepoErrKind
  baseErr : Option DynError
  ns : String
deriving DecidableEq

/-- `Repo.Find` (src/repo.go lines 163-186), parametrized by the outcome of
the collaborator's `table.Get("ID", id).Consistent(true).One(entity)` call:
a missing factory fails with `ErrModelNotSet`; any failure of the Get —
`dynamo.ErrNotFound` or a transport failure alike — is wrapped as an
`eh.RepoError` whose `Err` is `eh.ErrEntityNotFound` with the Get's error as
`BaseErr`. -/
def Repo.find (ctx : Ctx) (factorySet : Bool)
    (getOutcome : Except DynError Entity) : Except RepoError Entity :=
  if !factorySet then .error ⟨.modelNotSet, none, ctx.ns⟩
  else
    match getOutcome with
    | .error e => .error ⟨.entityNotFound, some e, ctx.ns⟩
    | .ok ent => .ok ent

/-! ## Helper lemmas: the save path -/

/-- The batch's versions are `v+1, v+2, ...` in order (the version sequencer
condition Save checks event by event). -/
def contiguousFrom (v : Int) : List Event → Prop
  | [] => True
  | e :: rest => e.version = v + 1 ∧ contiguousFrom (v + 1) rest

theorem contiguousFrom_lt (v : Int) :
    ∀ evs, contiguousFrom v evs → ∀ e ∈ evs, v < e.version
  | [], _, e, he => absurd he (List.not_mem_nil e)
  | e0 :: rest, ⟨h1, hrest⟩, e, he => by
    rcases List.mem_cons.mp he with rfl | hmem
    · omega
    · have := contiguousFrom_lt (v + 1) rest hrest e hmem
      omega

theorem contiguousFrom_pairwise (v : Int) :
    ∀ evs, contiguousFrom v evs →
      List.Pairwise (fun a b : Event => a.version ≤ b.version) evs
  | [], _ => List.Pairwise.nil
  | e0 :: rest, ⟨h1, hrest⟩ => by
    refine List.Pairwise.cons (fun b hb => ?_) (contiguousFrom_pairwise (v + 1) rest hrest)
    have := contiguousFrom_lt (v + 1) rest hrest b hb
    omega

theorem occupied_append (a b : Store) (id : String) (v : Int) :
    occupied (a ++ b) id v = (occupied a id v || occupied b id v) :=
  List.any_append

@[simp] theorem encodeOk_aggregateID (e : Event) :
    (encodeOk e).aggregateID = e.aggregateID := rfl

@[simp] theorem encodeOk_version (e : Event) :
    (encodeOk e).version = e.version := rfl

/-- Running the save loop over a valid, writable batch segment `good`
followed by `tail` persists `good`'s records in order and continues on
`tail` with the advanced version counter. -/
theorem saveLoop_split (ctx : Ctx) (id : String) :
    ∀ (good : List Event) (tail : List Event) (st : Store) (v : Int),
    (∀ e ∈ good, e.aggregateID = id) →
    contiguousFrom v good →
    (∀ e ∈ good, marshalable e) →
    (∀ e ∈ good, occupied st id e.version = false) →
    saveLoop ctx id v st (good ++ tail) =
      saveLoop ctx id (v + (good.length : Int)) (st ++ good.map encodeOk) tail
  | [], tail, st, v, _, _, _, _ => by simp
  | e :: good, tail, st, v, hid, hver, hmar, hfree => by
    obtain ⟨hv1, hvrest⟩ := hver
    have hide : e.aggregateID = id := hid e (List.mem_cons_self e good)
    have hocc : occupied st e.aggregateID e.version = false := by
      rw [hide]; exact hfree e (List.mem_cons_self e good)
    have hput : putIfAbsent st (encodeOk e) = .ok (st ++ [encodeOk e]) := by
      rw [putIfAbsent, if_neg (by simp [encodeOk_aggregateID, encodeOk_version, hocc])]
    rw [List.cons_append, saveLoop, if_neg (by simp [hide]), if_neg (by simp [hv1])]
    simp only [newDBEvent_ok ctx e (hmar e (List.mem_cons_self e good)), hput]
    have hfree' : ∀ e' ∈ good, occupied (st ++ [encodeOk e]) id e'.version = false := by
      intro e' he'
      rw [occupied_append]
      have h1 : occupied st id e'.version = false := hfree e' (List.mem_cons_of_mem e he')
      have h2 : v + 1 < e'.version := contiguousFrom_lt (v + 1) good hvrest e' he'
      have h3 : occupied [encodeOk e] id e'.version = false := by
        simp [occupied, atKey]
        intro h
        omega
      simp [h1, h3]
    have := saveLoop_split ctx id good tail (st ++ [encodeOk e]) (v + 1)
      (fun e' he' => hid e' (List.mem_cons_of_mem e he')) hvrest
      (fun e' he' => hmar e' (List.mem_cons_of_mem e he')) hfree'
    rw [this]
    congr 1
    · simp [List.length_cons]; ring
    · simp

/-- Full-batch success of the save loop: every record appended in order. -/
theorem saveLoop_ok (ctx : Ctx) (id : String) (evs : List Event) (st : Store)
    (v : Int)
    (hid : ∀ e ∈ evs, e.aggregateID = id)
    (hver : contiguousFrom v evs)
    (hmar : ∀ e ∈ evs, marshalable e)
    (hfree : ∀ e ∈ evs, occupied st id e.version = false) :
    saveLoop ctx id v st evs = (none, st ++ evs.map encodeOk) := by
  have := saveLoop_split ctx id evs [] st v hid hver hmar hfree
  simpa [saveLoop] using this

/-! ## Helper lemmas: the load path -/

theorem insertByVer_of_le (r : DBEvent) (l : List DBEvent)
    (h : ∀ x ∈ l, r.version ≤ x.version) : insertByVer r l = r :: l := by
  cases l with
  | nil => rfl
  | cons x xs =>
    rw [insertByVer, if_pos (h x (List.mem_cons_self x xs))]

theorem sortByVer_of_sorted :
    ∀ l : List DBEvent,
    List.Pairwise (fun a b : DBEvent => a.version ≤ b.version) l →
    sortByVer l = l
  | [], _ => rfl
  | x :: xs, h => by
    rw [sortByVer, sortByVer_of_sorted xs h.of_cons,
      insertByVer_of_le x xs fun y hy => List.rel_of_pairwise_cons h hy]

/-- Decoding the record `newDBEvent` built for a registry-compatible event
restores the event exactly. -/
theorem decode_encodeOk (reg : Registry) (ctx : Ctx) (e : Event)
    (h : compatible reg e) :
    ∃ r', decodeDBEvent reg ctx (encodeOk e) = .ok r' ∧ toEvent r' = e := by
  unfold compatible at h
  cases hd : e.data with
  | none =>
    rw [hd] at h
    refine ⟨encodeOk e, ?_, ?_⟩
    · rw [decodeDBEvent]
      have : (encodeOk e).eventType = e.eventType := rfl
      rw [this, h]
    · cases e
      simp_all [toEvent, encodeOk]
  | some d =>
    rw [hd] at h
    obtain ⟨hrep, hreg⟩ := h
    obtain ⟨mm, hmm, humm⟩ := roundtrip_fields d hrep
    have hraw : (encodeOk e).rawData = some mm := by
      simp [encodeOk, hd, hmm]
    refine ⟨{ encodeOk e with rawData := none, data := some d }, ?_, ?_⟩
    · rw [decodeDBEvent]
      have ht : (encodeOk e).eventType = e.eventType := rfl
      rw [ht, hreg]
      simp [encodeOk, hd, hmm, humm mm fun _ _ => rfl]
    · cases e
      simp_all [toEvent, encodeOk]

/-- Decoding the records of a registry-compatible batch restores the batch. -/
theorem buildEvents_encode (reg : Registry) (ctx : Ctx) :
    ∀ evs : List Event, (∀ e ∈ evs, compatible reg e) →
    buildEvents reg ctx (evs.map encodeOk) = .ok evs
  | [], _ => rfl
  | e :: rest, h => by
    obtain ⟨r', hr', hte⟩ := decode_encodeOk reg ctx e (h e (List.mem_cons_self e rest))
    rw [List.map_cons, buildEvents]
    simp only [hr',
      buildEvents_encode reg ctx rest fun e' he' => h e' (List.mem_cons_of_mem e he'), hte]

/-! ## Claim C1 -/

/-- C1: for every non-empty batch of events sharing one aggregate id whose
versions are exactly `v+1, ..., v+k`, `Save` succeeds (returns nil with no
downstream handler set), and a subsequent `Load` of that aggregate id
returns exactly those k events in ascending version order.  Hypotheses make
the claim's implicit context explicit: the aggregate's stream is empty
beforehand (otherwise `Load` would also return the pre-existing events) and
the batch agrees with the payload registry (the round-trip condition the
decode path needs). -/
theorem save_then_load_returns_batch
    (reg : Registry) (ctx : Ctx) (st : Store) (events : List Event)
    (id : String) (v : Int)
    (hne : events ≠ [])
    (hid : ∀ e ∈ events, e.aggregateID = id)
    (hver : contiguousFrom v events)
    (hcompat : ∀ e ∈ events, compatible reg e)
    (hfresh : ∀ r ∈ st, r.aggregateID ≠ id) :
    ∃ st', save ⟨reg, none⟩ ctx st events v = (none, st') ∧
      load ⟨reg, none⟩ ctx st' id = .ok events := by
  have hfree : ∀ e ∈ events, occupied st id e.version = false := by
    intro e _
    rw [occupied, List.any_eq_false]
    intro r hr
    simp only [atKey, Bool.and_eq_true, beq_iff_eq, not_and]
    intro h1
    exact absurd h1 (hfresh r hr)
  refine ⟨st ++ events.map encodeOk, ?_, ?_⟩
  · cases events with
    | nil => exact absurd rfl hne
    | cons e0 rest =>
      rw [save, hid e0 (List.mem_cons_self e0 rest),
        saveLoop_ok ctx id (e0 :: rest) st v hid hver
          (fun e he => fun d hd => (hcompat e he |> fun hc => by
            rw [compatible, hd] at hc
            exact hc.1))
          hfree]
  · rw [load, queryByID, List.filter_append]
    have h1 : st.filter (·.aggregateID == id) = [] := by
      rw [List.filter_eq_nil_iff]
      intro r hr
      simp only [beq_iff_eq]
      exact hfresh r hr
    have h2 : (events.map encodeOk).filter (·.aggregateID == id) =
        events.map encodeOk := by
      rw [List.filter_eq_self]
      intro r hr
      obtain ⟨e, he, rfl⟩ := List.mem_map.mp hr
      simp only [encodeOk_aggregateID, beq_iff_eq]
      exact hid e he
    rw [h1, h2, List.nil_append,
      sortByVer_of_sorted _ (List.pairwise_map.mpr (contiguousFrom_pairwise v events hver)),
      buildEvents_encode reg ctx events hcompat]

/-- Witness for C1: a two-event batch for aggregate `"a"` saved into an
empty store from base version 0 round-trips through `Load`; the first event
carries a registered one-field payload, the second carries none. -/
theorem save_then_load_returns_batch_witness :
    ∃ st', save ⟨fun t => if t = "E1" then some (.scons "N" .sint .snil) else none, none⟩
        ⟨"tenant"⟩ [] [⟨"E1", some (.fcons "N" (.pint 7) .fnil), 5, "AT", "a", 1, [("k", "w")]⟩,
          ⟨"E2", none, 6, "AT", "a", 2, []⟩] 0 = (none, st') ∧
      load ⟨fun t => if t = "E1" then some (.scons "N" .sint .snil) else none, none⟩
        ⟨"tenant"⟩ st' "a" =
        .ok [⟨"E1", some (.fcons "N" (.pint 7) .fnil), 5, "AT", "a", 1, [("k", "w")]⟩,
          ⟨"E2", none, 6, "AT", "a", 2, []⟩] := by
  refine save_then_load_returns_batch _ _ _ _ "a" 0 (by simp) ?_ ?_ ?_ ?_
  · intro e he
    simp only [List.mem_cons, List.not_mem_nil, or_false] at he
    rcases he with rfl | rfl <;> rfl
  · exact ⟨rfl, rfl, trivial⟩
  · intro e he
    simp only [List.mem_cons, List.not_mem_nil, or_false] at he
    rcases he with rfl | rfl
    · exact ⟨rfl, rfl⟩
    · rfl
  · intro r hr
    exact absurd hr (List.not_mem_nil r)

/-! ## Claims C2 and C3 -/

theorem contiguousFrom_append (v : Int) :
    ∀ (xs ys : List Event), contiguousFrom v (xs ++ ys) ↔
      contiguousFrom v xs ∧ contiguousFrom (v + (xs.length : Int)) ys
  | [], ys => by simp [contiguousFrom]
  | x :: xs, ys => by
    rw [List.cons_append, contiguousFrom, contiguousFrom,
      contiguousFrom_append (v + 1) xs ys]
    constructor
    · rintro ⟨h1, h2, h3⟩
      refine ⟨⟨h1, h2⟩, ?_⟩
      have : v + 1 + (xs.length : Int) = v + ((x :: xs).length : Int) := by
        simp [List.length_cons]; ring
      rwa [this] at h3
    · rintro ⟨⟨h1, h2⟩, h3⟩
      refine ⟨h1, h2, ?_⟩
      have : v + 1 + (xs.length : Int) = v + ((x :: xs).length : Int) := by
        simp [List.length_cons]; ring
      rwa [this]

/-- Counterexample to C2 as stated: a two-event batch whose second event
belongs to a different aggregate is rejected with `ErrInvalidEvent`, yet the
first event of the batch has already been persisted — the store is not left
empty. -/
theorem save_validation_prewrite_cex :
    save ⟨fun _ => none, none⟩ ⟨"default"⟩ []
      [⟨"E", none, 0, "AT", "a", 1, []⟩, ⟨"E", none, 0, "AT", "b", 2, []⟩] 0 =
      (some (.storeErr ⟨.invalidEvent, none, "default"⟩),
        [⟨"a", 1, "E", none, none, 0, "AT", []⟩]) := by
  rfl

/-- C2 amended: `Save` returns `ErrNoEventsToAppend` for an empty batch,
`ErrInvalidEvent` for a mixed aggregate id and `ErrIncorrectEventVersion`
for a version mismatch, and no write is attempted for the offending event or
any event after it; but validation is interleaved with the writes, so the
events strictly before the first offending position are persisted — the
batch is only left entirely unpersisted when the offending event is first. -/
theorem save_rejects_at_first_offender (es : EventStore) (ctx : Ctx) (st : Store)
    (good : List Event) (bad : Event) (rest : List Event) (id : String) (v : Int)
    (hid : ∀ e ∈ good, e.aggregateID = id)
    (hhead : ((good ++ bad :: rest).head?.map Event.aggregateID) = some id)
    (hver : contiguousFrom v good)
    (hmar : ∀ e ∈ good, marshalable e)
    (hfree : ∀ e ∈ good, occupied st id e.version = false) :
    (∀ v' : Int, save es ctx st [] v' =
      (some (.storeErr ⟨.noEventsToAppend, none, ctx.ns⟩), st)) ∧
    (bad.aggregateID ≠ id →
      save es ctx st (good ++ bad :: rest) v =
        (some (.storeErr ⟨.invalidEvent, none, ctx.ns⟩), st ++ good.map encodeOk)) ∧
    (bad.aggregateID = id → bad.version ≠ v + (good.length : Int) + 1 →
      save es ctx st (good ++ bad :: rest) v =
        (some (.storeErr ⟨.incorrectEventVersion, none, ctx.ns⟩), st ++ good.map encodeOk)) := by
  refine ⟨fun v' => rfl, ?_, ?_⟩
  · intro hbad
    cases good with
    | nil =>
      simp only [List.nil_append, List.head?_cons, Option.map_some'] at hhead
      exact absurd (Option.some.inj hhead) hbad
    | cons e0 g =>
      have he0 : e0.aggregateID = id := hid e0 (List.mem_cons_self e0 g)
      rw [show ((e0 :: g) ++ bad :: rest) = e0 :: (g ++ bad :: rest) from rfl, save, he0,
        show e0 :: (g ++ bad :: rest) = (e0 :: g) ++ bad :: rest from rfl,
        saveLoop_split ctx id (e0 :: g) (bad :: rest) st v hid hver hmar hfree,
        saveLoop, if_pos hbad]
  · intro hbad hbadv
    have hloop : saveLoop ctx id v st (good ++ bad :: rest) =
        (some (.storeErr ⟨.incorrectEventVersion, none, ctx.ns⟩), st ++ good.map encodeOk) := by
      rw [saveLoop_split ctx id good (bad :: rest) st v hid hver hmar hfree,
        saveLoop, if_neg (by simp [hbad]), if_pos (by omega)]
    cases good with
    | nil =>
      rw [List.nil_append] at hloop ⊢
      rw [save, hbad, hloop]
    | cons e0 g =>
      have he0 : e0.aggregateID = id := hid e0 (List.mem_cons_self e0 g)
      rw [show ((e0 :: g) ++ bad :: rest) = e0 :: (g ++ bad :: rest) from rfl, save, he0,
        show e0 :: (g ++ bad :: rest) = (e0 :: g) ++ bad :: rest from rfl, hloop]

/-- Witness for C2 amended: rejecting the mixed-aggregate batch of the
counterexample leaves exactly the first event's record persisted. -/
theorem save_rejects_at_first_offender_witness :
    save ⟨fun _ => none, none⟩ ⟨"default"⟩ []
      ([⟨"E", none, 0, "AT", "a", 1, []⟩] ++ ⟨"E", none, 0, "AT", "b", 2, []⟩ :: []) 0 =
      (some (.storeErr ⟨.invalidEvent, none, "default"⟩),
        [] ++ [⟨"E", none, 0, "AT", "a", 1, []⟩].map encodeOk) := by
  refine (save_rejects_at_first_offender ⟨fun _ => none, none⟩ ⟨"default"⟩ []
    [⟨"E", none, 0, "AT", "a", 1, []⟩] ⟨"E", none, 0, "AT", "b", 2, []⟩ [] "a" 0
    ?_ rfl ?_ ?_ ?_).2.1 (by decide)
  · intro e he
    simp only [List.mem_cons, List.not_mem_nil, or_false] at he
    subst he; rfl
  · exact ⟨rfl, trivial⟩
  · intro e he
    simp only [List.mem_cons, List.not_mem_nil, or_false] at he
    subst he; intro d hd; cases hd
  · intro e he
    simp only [List.mem_cons, List.not_mem_nil, or_false] at he
    subst he; rfl

/-- A save whose batch hits an occupied slot at the first event past `good`
persists exactly `good`'s records and returns the translated
conditional-check error. -/
theorem save_conflict_general (es : EventStore) (ctx : Ctx) (st : Store)
    (good : List Event) (bad : Event) (rest : List Event) (id : String) (v : Int)
    (hid : ∀ e ∈ good, e.aggregateID = id)
    (hbad : bad.aggregateID = id)
    (hver : contiguousFrom v (good ++ [bad]))
    (hmar : ∀ e ∈ good, marshalable e)
    (hmarb : marshalable bad)
    (hfree : ∀ e ∈ good, occupied st id e.version = false)
    (hocc : occupied st id bad.version = true) :
    save es ctx st (good ++ bad :: rest) v =
      (some (savePutError ctx.ns condCheckFailed), st ++ good.map encodeOk) := by
  obtain ⟨hvgood, hvbad⟩ := (contiguousFrom_append v good [bad]).mp hver
  obtain ⟨hvb, -⟩ := hvbad
  have hloop : saveLoop ctx id v st (good ++ bad :: rest) =
      (some (savePutError ctx.ns condCheckFailed), st ++ good.map encodeOk) := by
    rw [saveLoop_split ctx id good (bad :: rest) st v hid hvgood hmar hfree,
      saveLoop, if_neg (by simp [hbad]), if_neg (by omega), newDBEvent_ok ctx bad hmarb]
    have hput : putIfAbsent (st ++ good.map encodeOk) (encodeOk bad) =
        .error condCheckFailed := by
      rw [putIfAbsent, if_pos]
      rw [encodeOk_aggregateID, encodeOk_version, hbad, occupied_append, hocc,
        Bool.true_or]
    simp only [hput]
  cases good with
  | nil =>
    rw [List.nil_append] at hloop ⊢
    rw [save, hbad, hloop]
  | cons e0 g =>
    have he0 : e0.aggregateID = id := hid e0 (List.mem_cons_self e0 g)
    rw [show ((e0 :: g) ++ bad :: rest) = e0 :: (g ++ bad :: rest) from rfl, save, he0,
      show e0 :: (g ++ bad :: rest) = (e0 :: g) ++ bad :: rest from rfl, hloop]

/-- C3: a batch `Save` is not atomic across events.  Writes go in strictly
increasing version order, each attempted only after the previous ones
succeeded; when the conditional append of the (N+1)-th event fails because
its `(AggregateID, Version)` slot is occupied, `Save` returns the translated
conditional-check error, the first N events of the batch remain persisted
(appended in order after the untouched pre-existing records), and the
offending event and everything after it are never written. -/
theorem save_conflict_partial_persist (es : EventStore) (ctx : Ctx) (st : Store)
    (good : List Event) (bad : Event) (rest : List Event) (id : String) (v : Int)
    (hid : ∀ e ∈ good, e.aggregateID = id)
    (hbad : bad.aggregateID = id)
    (hver : contiguousFrom v (good ++ [bad]))
    (hmar : ∀ e ∈ good, marshalable e)
    (hmarb : marshalable bad)
    (hfree : ∀ e ∈ good, occupied st id e.version = false)
    (hocc : occupied st id bad.version = true) :
    save es ctx st (good ++ bad :: rest) v =
      (some (savePutError ctx.ns condCheckFailed), st ++ good.map encodeOk) :=
  save_conflict_general es ctx st good bad rest id v hid hbad hver hmar hmarb hfree hocc

/-- Witness for C3: saving versions 1 and 2 for aggregate `"a"` over a store
already holding version 2 persists version 1, returns the translated
conditional-check error, and leaves version 2's pre-existing record alone. -/
theorem save_conflict_partial_persist_witness :
    save ⟨fun _ => none, none⟩ ⟨"default"⟩ [⟨"a", 2, "Old", none, none, 9, "AT", []⟩]
      ([⟨"E", none, 0, "AT", "a", 1, []⟩] ++ ⟨"E", none, 0, "AT", "a", 2, []⟩ :: []) 0 =
      (some (savePutError "default" condCheckFailed),
        [⟨"a", 2, "Old", none, none, 9, "AT", []⟩] ++
          [⟨"E", none, 0, "AT", "a", 1, []⟩].map encodeOk) := by
  refine save_conflict_partial_persist ⟨fun _ => none, none⟩ ⟨"default"⟩ _
    [⟨"E", none, 0, "AT", "a", 1, []⟩] ⟨"E", none, 0, "AT", "a", 2, []⟩ [] "a" 0
    ?_ rfl ?_ ?_ ?_ ?_ rfl
  · intro e he
    simp only [List.mem_cons, List.not_mem_nil, or_false] at he
    subst he; rfl
  · exact ⟨rfl, rfl, trivial⟩
  · intro e he
    simp only [List.mem_cons, List.not_mem_nil, or_false] at he
    subst he; intro d hd; cases hd
  · intro d hd; cases hd
  · intro e he
    simp only [List.mem_cons, List.not_mem_nil, or_false] at he
    subst he; rfl

/-! ## Claim C4 -/

/-- C4: when the conditional append fails because the slot is occupied,
`Save` returns the concurrency-conflict kind `ErrCouldNotSaveAggregate`, and
that kind arises from `Save`'s put-error translation exactly for the
`ConditionalCheckFailedException` failure — any other failure of the same
write is passed through as itself, so the two are distinguishable. -/
theorem save_conflict_error_distinguishable (ctx : Ctx) (st : Store)
    (ev : Event) (es : EventStore) (e : DynError)
    (hmar : marshalable ev)
    (hocc : occupied st ev.aggregateID ev.version = true) :
    ((save es ctx st [ev] (ev.version - 1)).1 =
      some (.storeErr ⟨.couldNotSaveAggregate, some condCheckFailed, ctx.ns⟩)) ∧
    (storeErrKind (savePutError ctx.ns e) = some .couldNotSaveAggregate ↔
      isCondCheckFailed e = true) := by
  constructor
  · have h := save_conflict_general es ctx st [] ev [] ev.aggregateID
      (ev.version - 1) (fun e he => absurd he (List.not_mem_nil e)) rfl
      (by exact ⟨by ring, trivial⟩) (fun e he => absurd he (List.not_mem_nil e)) hmar
      (fun e he => absurd he (List.not_mem_nil e)) hocc
    rw [List.nil_append] at h
    rw [h]
    rfl
  · rw [savePutError]
    constructor
    · intro hk
      by_contra hc
      rw [if_neg (by simp [Bool.not_eq_true] at hc ⊢; exact hc)] at hk
      simp [storeErrKind] at hk
    · intro hcc
      rw [if_pos hcc]
      rfl

/-- Witness for C4: a conflicting single-event save over an occupied slot
returns the conflict kind, while a throttling failure of the same write is
not translated to it. -/
theorem save_conflict_error_distinguishable_witness :
    ((save ⟨fun _ => none, none⟩ ⟨"default"⟩ [⟨"a", 1, "Old", none, none, 0, "AT", []⟩]
      [⟨"E", none, 0, "AT", "a", 1, []⟩] 0).1 =
      some (.storeErr ⟨.couldNotSaveAggregate, some condCheckFailed, "default"⟩)) ∧
    (storeErrKind (savePutError "default" (.requestFailure "ThrottlingException" "slow down")) =
      some .couldNotSaveAggregate ↔
      isCondCheckFailed (.requestFailure "ThrottlingException" "slow down") = true) := by
  have h := save_conflict_error_distinguishable ⟨"default"⟩
    [⟨"a", 1, "Old", none, none, 0, "AT", []⟩] ⟨"E", none, 0, "AT", "a", 1, []⟩
    ⟨fun _ => none, none⟩ (.requestFailure "ThrottlingException" "slow down")
    (fun d hd => by cases hd) rfl
  exact ⟨by simpa using h.1, h.2⟩

/-! ## Claim C5 -/

/-- C5: for every event whose payload is representable in the generic
attribute encoding and agrees with the registry (a payload-carrying event's
tag registered with its payload's shape; a payload-less event's tag
unregistered, there being no payload type to register), encoding via
`newDBEvent` and decoding via `buildEvents` reproduces the type tag,
timestamp, aggregate id, aggregate type, version, metadata and payload
exactly; an event with no payload round-trips with an absent payload on
both sides (`rawData` absent on the record, `data` absent on the result). -/
theorem encode_decode_roundtrip (reg : Registry) (ctx : Ctx) (ev : Event)
    (h : compatible reg ev) :
    ∃ dbe, newDBEvent ctx ev = .ok dbe ∧ buildEvents reg ctx [dbe] = .ok [ev] ∧
      (ev.data = none → dbe.rawData = none) := by
  have hmar : marshalable ev := by
    intro d hd
    rw [compatible, hd] at h
    exact h.1
  refine ⟨encodeOk ev, newDBEvent_ok ctx ev hmar, ?_, ?_⟩
  · have := buildEvents_encode reg ctx [ev] (by
      intro e he
      simp only [List.mem_cons, List.not_mem_nil, or_false] at he
      subst he
      exact h)
    simpa using this
  · intro hd
    simp [encodeOk, hd]

/-- Witness for C5: an event with a registered nested-struct payload
round-trips exactly. -/
theorem encode_decode_roundtrip_witness :
    ∃ dbe, newDBEvent ⟨"tenant"⟩ ⟨"E", some (.fcons "S" (.pstr "x")
        (.fcons "Inner" (.pstruct (.fcons "B" (.pbool true) .fnil)) .fnil)),
        3, "AT", "agg", 4, [("m", "v")]⟩ = .ok dbe ∧
      buildEvents (fun t => if t = "E" then some (.scons "S" .sstr
          (.scons "Inner" (.sstruct (.scons "B" .sbool .snil)) .snil)) else none)
        ⟨"tenant"⟩ [dbe] =
        .ok [⟨"E", some (.fcons "S" (.pstr "x")
          (.fcons "Inner" (.pstruct (.fcons "B" (.pbool true) .fnil)) .fnil)),
          3, "AT", "agg", 4, [("m", "v")]⟩] ∧
      ((⟨"E", some (.fcons "S" (.pstr "x")
        (.fcons "Inner" (.pstruct (.fcons "B" (.pbool true) .fnil)) .fnil)),
        3, "AT", "agg", 4, [("m", "v")]⟩ : Event).data = none → dbe.rawData = none) := by
  exact encode_decode_roundtrip _ _ _ ⟨by decide, rfl⟩

/-! ## Claim C6 -/

/-- The only error the decode step produces is the unmarshal failure,
wrapped with the namespace. -/
theorem decodeDBEvent_error_eq (reg : Registry) (ctx : Ctx) (x : DBEvent)
    (e : StoreErr) (h : decodeDBEvent reg ctx x = .error e) :
    e = .storeErr ⟨.couldNotUnmarshalEvent, some .unmarshalError, ctx.ns⟩ := by
  simp only [decodeDBEvent] at h
  rcases hr : reg x.eventType with _ | sfs <;> simp only [hr] at h
  · exact Except.noConfusion h
  · rcases hu : unmarshalFields sfs (x.rawData.getD []) with _ | d <;>
      simp only [hu] at h
    · exact (Except.error.inj h).symm
    · exact Except.noConfusion h

/-- Decoding the empty attribute map zero-fills every field of the shape. -/
theorem unmarshalFields_nil_map :
    ∀ sfs : SFields, unmarshalFields sfs [] = some (zeroFields sfs)
  | .snil => rfl
  | .scons k sh rest => by
    simp [unmarshalFields, lookupAttr, zeroFields, unmarshalFields_nil_map rest]

/-- A record with a registered tag but an absent raw payload map decodes
without error into a zero-valued fresh instance, since
`UnmarshalMap(nil, out)` returns a nil error and sets no fields. -/
theorem decodeDBEvent_absent_raw (reg : Registry) (ctx : Ctx) (r : DBEvent)
    (sfs : SFields) (hreg : reg r.eventType = some sfs) (hraw : r.rawData = none) :
    decodeDBEvent reg ctx r =
      .ok { r with rawData := none, data := some (zeroFields sfs) } := by
  simp [decodeDBEvent, hreg, hraw, unmarshalFields_nil_map]

/-- A load containing a record whose present raw payload does not unmarshal
into its registered shape fails with the unmarshal error. -/
theorem buildEvents_err (reg : Registry) (ctx : Ctx) :
    ∀ (l : List DBEvent) (r : DBEvent) (sfs : SFields) (m : AttrMap), r ∈ l →
    reg r.eventType = some sfs → r.rawData = some m →
    unmarshalFields sfs m = none →
    buildEvents reg ctx l =
      .error (.storeErr ⟨.couldNotUnmarshalEvent, some .unmarshalError, ctx.ns⟩)
  | [], r, sfs, m, hr, _, _, _ => absurd hr (List.not_mem_nil r)
  | x :: xs, r, sfs, m, hr, hreg, hraw, hum => by
    rcases List.mem_cons.mp hr with rfl | hmem
    · have hx : decodeDBEvent reg ctx r =
          .error (.storeErr ⟨.couldNotUnmarshalEvent, some .unmarshalError, ctx.ns⟩) := by
        simp [decodeDBEvent, hreg, hraw, hum]
      rw [buildEvents, hx]
    · rw [buildEvents]
      cases hd : decodeDBEvent reg ctx x with
      | error e => rw [decodeDBEvent_error_eq reg ctx x e hd]
      | ok x' => rw [buildEvents_err reg ctx xs r sfs m hmem hreg hraw hum]

/-- C6: a stored record whose type tag has no registered constructor decodes
without error into an event with an empty payload and every other field
intact; a record whose tag is registered but whose stored payload bytes do
not unmarshal into the registered shape makes the whole load fail with the
unmarshal error.  (A registered tag with an absent payload map is not a
mismatch: `UnmarshalMap` accepts a nil map, zero-filling the fresh
instance — see `decodeDBEvent_absent_raw`.) -/
theorem decode_unknown_tag_and_mismatch (reg : Registry) (ctx : Ctx) :
    (∀ r : DBEvent, reg r.eventType = none → r.data = none →
      buildEvents reg ctx [r] = .ok [⟨r.eventType, none, r.timestamp,
        r.aggregateType, r.aggregateID, r.version, r.metadata⟩]) ∧
    (∀ (l : List DBEvent) (r : DBEvent) (sfs : SFields) (m : AttrMap), r ∈ l →
      reg r.eventType = some sfs → r.rawData = some m →
      unmarshalFields sfs m = none →
      buildEvents reg ctx l =
        .error (.storeErr ⟨.couldNotUnmarshalEvent, some .unmarshalError, ctx.ns⟩)) := by
  constructor
  · intro r hreg hdata
    have hx : decodeDBEvent reg ctx r = .ok r := by
      simp only [decodeDBEvent, hreg]
    rw [buildEvents, hx]
    simp [buildEvents, toEvent, hdata]
  · exact buildEvents_err reg ctx

/-- Witness for C6: a record tagged with the unregistered `"Ghost"` decodes
to a payload-less event, and a load containing a record whose registered
shape disagrees with its stored bytes fails. -/
theorem decode_unknown_tag_and_mismatch_witness :
    (buildEvents (fun t => if t = "Known" then some (.scons "N" .sint .snil) else none)
      ⟨"tenant"⟩ [⟨"a", 1, "Ghost", some [("X", .avS "s")], none, 2, "AT", []⟩] =
      .ok [⟨"Ghost", none, 2, "AT", "a", 1, []⟩]) ∧
    (buildEvents (fun t => if t = "Known" then some (.scons "N" .sint .snil) else none)
      ⟨"tenant"⟩ [⟨"a", 1, "Ghost", some [("X", .avS "s")], none, 2, "AT", []⟩,
        ⟨"a", 2, "Known", some [("N", .avS "oops")], none, 3, "AT", []⟩] =
      .error (.storeErr ⟨.couldNotUnmarshalEvent, some .unmarshalError, "tenant"⟩)) := by
  have h := decode_unknown_tag_and_mismatch
    (fun t => if t = "Known" then some (.scons "N" .sint .snil) else none) ⟨"tenant"⟩
  refine ⟨h.1 ⟨"a", 1, "Ghost", some [("X", .avS "s")], none, 2, "AT", []⟩ rfl rfl, ?_⟩
  exact h.2 _ ⟨"a", 2, "Known", some [("N", .avS "oops")], none, 3, "AT", []⟩
    (.scons "N" .sint .snil) [("N", .avS "oops")] (by simp) rfl rfl rfl

/-! ## Claim C7 -/

theorem countByID_ne_zero_of_occupied (st : Store) (id : String) (v : Int)
    (h : occupied st id v = true) : countByID st id ≠ 0 := by
  rw [occupied, List.any_eq_true] at h
  obtain ⟨r, hr, hk⟩ := h
  rw [atKey, Bool.and_eq_true, beq_iff_eq, beq_iff_eq] at hk
  have hmem : r ∈ st.filter (·.aggregateID == id) :=
    List.mem_filter.mpr ⟨hr, by simp [hk.1]⟩
  intro hlen
  rw [countByID, List.length_eq_zero] at hlen
  rw [hlen] at hmem
  exact List.not_mem_nil r hmem

/-- C7: `Replace` fails with the bare `ErrAggregateNotFound` and writes
nothing when the aggregate has zero records; with a non-empty stream but an
unoccupied `(AggregateID, Version)` slot the failed replace precondition is
reported as the bare `ErrInvalidEvent` — an error distinct from the
concurrency-conflict shape — and nothing is written; with the slot occupied
the record at that key alone is overwritten by the re-encoded event, whose
key fields are the event's own aggregate id and version. -/
theorem replace_semantics (ctx : Ctx) (st : Store) (ev : Event) :
    (countByID st ev.aggregateID = 0 →
      replace ctx st ev = (some (.sentinel .aggregateNotFound), st)) ∧
    (countByID st ev.aggregateID ≠ 0 → marshalable ev →
      occupied st ev.aggregateID ev.version = false →
      replace ctx st ev = (some (.sentinel .invalidEvent), st)) ∧
    (marshalable ev → occupied st ev.aggregateID ev.version = true →
      replace ctx st ev = (none, st.map fun r =>
        if atKey r ev.aggregateID ev.version then encodeOk ev else r)) ∧
    (∀ (n : String) (b : Option DynError),
      (StoreErr.sentinel .invalidEvent) ≠ .storeErr ⟨.couldNotSaveAggregate, b, n⟩) := by
  refine ⟨?_, ?_, ?_, fun n b h => StoreErr.noConfusion h⟩
  · intro h
    rw [replace, if_pos h]
  · intro h hmar hocc
    have hput : putIfPresent st (encodeOk ev) = .error condCheckFailed := by
      rw [putIfPresent, if_neg (by simp [encodeOk_aggregateID, encodeOk_version, hocc])]
    rw [replace, if_neg h, newDBEvent_ok ctx ev hmar]
    simp only [hput]
    rfl
  · intro hmar hocc
    have hput : putIfPresent st (encodeOk ev) = .ok (st.map fun r =>
        if atKey r ev.aggregateID ev.version then encodeOk ev else r) := by
      rw [putIfPresent, encodeOk_aggregateID, encodeOk_version, if_pos hocc]
    rw [replace, if_neg (countByID_ne_zero_of_occupied st ev.aggregateID ev.version hocc),
      newDBEvent_ok ctx ev hmar]
    simp only [hput]

/-- Witness for C7: replacing version 1 of aggregate `"a"` overwrites that
record's tag, timestamp, aggregate type and metadata in place. -/
theorem replace_semantics_witness :
    replace ⟨"default"⟩ [⟨"a", 1, "Old", none, none, 0, "AT", [("o", "1")]⟩]
      ⟨"New", none, 9, "AT2", "a", 1, [("n", "2")]⟩ =
      (none, [⟨"a", 1, "New", none, none, 9, "AT2", [("n", "2")]⟩]) := by
  have h := (replace_semantics ⟨"default"⟩
    [⟨"a", 1, "Old", none, none, 0, "AT", [("o", "1")]⟩]
    ⟨"New", none, 9, "AT2", "a", 1, [("n", "2")]⟩).2.2.1 (fun d hd => by cases hd) rfl
  exact h

/-! ## Claim C8 -/

/-- DynamoDB's invariant: at most one record per `(AggregateID, Version)`. -/
def keysUnique (st : Store) : Prop :=
  List.Pairwise
    (fun a b : DBEvent => ¬(a.aggregateID = b.aggregateID ∧ a.version = b.version)) st

/-- Does the record's key occur among the scanned records? -/
def keyIn (r : DBEvent) (ms : List DBEvent) : Bool :=
  ms.any fun m => r.aggregateID == m.aggregateID && r.version == m.version

/-- What one rename pass does to a record. -/
def retag (fromT toT : String) (r : DBEvent) : DBEvent :=
  if r.eventType == fromT then { r with eventType := toT } else r

theorem eq_of_same_key :
    ∀ (st : Store), keysUnique st → ∀ r m, r ∈ st → m ∈ st →
    r.aggregateID = m.aggregateID → r.version = m.version → r = m
  | [], _, r, _, hr, _, _, _ => absurd hr (List.not_mem_nil r)
  | x :: xs, hk, r, m, hr, hm, h1, h2 => by
    obtain ⟨hx, hxs⟩ := List.pairwise_cons.mp hk
    rcases List.mem_cons.mp hr with rfl | hr' <;> rcases List.mem_cons.mp hm with rfl | hm'
    · rfl
    · exact absurd ⟨h1, h2⟩ (hx m hm')
    · exact absurd ⟨h1.symm, h2.symm⟩ (hx r hr')
    · exact eq_of_same_key xs hxs r m hr' hm' h1 h2

/-- One pass of the rename update loop over scanned records with distinct
keys, each still present with the old tag, retags exactly those keys and
issues one update per scanned record. -/
theorem renameLoop_ok (ctx : Ctx) (fromT toT : String) :
    ∀ (ms : List DBEvent) (st : Store),
    List.Pairwise
      (fun a b : DBEvent => ¬(a.aggregateID = b.aggregateID ∧ a.version = b.version)) ms →
    (∀ m ∈ ms, ∃ r ∈ st, r.aggregateID = m.aggregateID ∧ r.version = m.version ∧
      r.eventType = fromT) →
    renameLoop ctx fromT toT st ms =
      (none, st.map (fun r => if keyIn r ms then { r with eventType := toT } else r),
        ms.length)
  | [], st, _, _ => by
    simp [renameLoop, keyIn]
  | m :: ms, st, hpw, hexist => by
    obtain ⟨hm, hms⟩ := List.pairwise_cons.mp hpw
    obtain ⟨r0, hr0, hid0, hver0, htag0⟩ := hexist m (List.mem_cons_self m ms)
    have hcond : (st.any fun r => atKey r m.aggregateID m.version &&
        r.eventType == fromT) = true := by
      refine List.any_eq_true.mpr ⟨r0, hr0, ?_⟩
      simp [atKey, hid0, hver0, htag0]
    have hupd : updateTagIf st m.aggregateID m.version fromT toT =
        .ok (st.map fun r => if atKey r m.aggregateID m.version then
          { r with eventType := toT } else r) := by
      rw [updateTagIf, if_pos hcond]
    have hex' : ∀ m' ∈ ms, ∃ r ∈ st.map (fun r =>
        if atKey r m.aggregateID m.version then { r with eventType := toT } else r),
        r.aggregateID = m'.aggregateID ∧ r.version = m'.version ∧
        r.eventType = fromT := by
      intro m' hm'
      obtain ⟨r, hr, hid, hver, htag⟩ := hexist m' (List.mem_cons_of_mem m hm')
      have hnk : atKey r m.aggregateID m.version = false := by
        rw [Bool.eq_false_iff]
        intro hc
        rw [atKey, Bool.and_eq_true, beq_iff_eq, beq_iff_eq] at hc
        exact hm m' hm' ⟨hc.1.symm.trans hid, hc.2.symm.trans hver⟩
      refine ⟨r, List.mem_map.mpr ⟨r, hr, if_neg (by simp [hnk])⟩, hid, hver, htag⟩
    have hmaps : (st.map fun r => if atKey r m.aggregateID m.version then
          { r with eventType := toT } else r).map
        (fun r => if keyIn r ms then { r with eventType := toT } else r) =
        st.map fun r => if keyIn r (m :: ms) then { r with eventType := toT } else r := by
      rw [List.map_map]
      refine List.map_congr_left fun r _ => ?_
      simp only [Function.comp_apply]
      cases hk : atKey r m.aggregateID m.version with
      | true =>
        have hk' := hk
        rw [atKey, Bool.and_eq_true, beq_iff_eq, beq_iff_eq] at hk'
        have hkin : keyIn r ms = false := by
          rw [Bool.eq_false_iff]
          intro hc
          rw [keyIn, List.any_eq_true] at hc
          obtain ⟨m', hm', hcc⟩ := hc
          rw [Bool.and_eq_true, beq_iff_eq, beq_iff_eq] at hcc
          exact hm m' hm' ⟨hk'.1.symm.trans hcc.1, hk'.2.symm.trans hcc.2⟩
        have hkin2 : keyIn ({ r with eventType := toT } : DBEvent) ms = false := hkin
        have hcons : keyIn r (m :: ms) = true := by
          rw [keyIn, List.any_cons]
          have hh : (r.aggregateID == m.aggregateID && r.version == m.version) = true := by
            rw [Bool.and_eq_true, beq_iff_eq, beq_iff_eq]
            exact hk'
          rw [hh, Bool.true_or]
        simp [hk, hcons, hkin2]
      | false =>
        have hcons : keyIn r (m :: ms) = keyIn r ms := by
          rw [keyIn, List.any_cons, show (r.aggregateID == m.aggregateID &&
            r.version == m.version) = atKey r m.aggregateID m.version from rfl, hk,
            Bool.false_or]
          rfl
        simp [hk, hcons]
    rw [renameLoop]
    simp only [hupd, renameLoop_ok ctx fromT toT ms _ hms hex', hmaps, List.length_cons]

theorem keyIn_filter_iff (st : Store) (hk : keysUnique st) (A : String)
    (r : DBEvent) (hr : r ∈ st) :
    keyIn r (st.filter (·.eventType == A)) = true ↔ r.eventType = A := by
  constructor
  · intro h
    rw [keyIn, List.any_eq_true] at h
    obtain ⟨m, hm, hcc⟩ := h
    rw [Bool.and_eq_true, beq_iff_eq, beq_iff_eq] at hcc
    obtain ⟨hmst, hmtag⟩ := List.mem_filter.mp hm
    rw [eq_of_same_key st hk r m hr hmst hcc.1 hcc.2]
    exact beq_iff_eq.mp hmtag
  · intro h
    rw [keyIn, List.any_eq_true]
    exact ⟨r, List.mem_filter.mpr ⟨hr, beq_iff_eq.mpr h⟩, by simp⟩

/-- C8: one `RenameEvent(A, B)` run (`A ≠ B`) succeeds, retags exactly the
records tagged `A` — preserving their aggregate id, version, payload,
timestamp and metadata — and leaves no record tagged `A`; a second run over
the resulting store matches zero records, issues zero update writes, and
leaves the store unchanged. -/
theorem renameEvent_idempotent (ctx : Ctx) (st : Store) (A B : String)
    (hk : keysUnique st) (hAB : A ≠ B) :
    renameEvent ctx st A B = (none, st.map (retag A B),
      (st.filter (·.eventType == A)).length) ∧
    (∀ r ∈ st.map (retag A B), r.eventType ≠ A) ∧
    renameEvent ctx (st.map (retag A B)) A B = (none, st.map (retag A B), 0) := by
  have hnoA : ∀ r ∈ st.map (retag A B), r.eventType ≠ A := by
    intro r hrm
    obtain ⟨r0, hr0, rfl⟩ := List.mem_map.mp hrm
    rw [retag]
    cases h0 : r0.eventType == A with
    | true =>
      rw [if_pos rfl]
      intro hc
      exact hAB hc.symm
    | false =>
      rw [if_neg (by simp)]
      intro hc
      rw [hc] at h0
      simp at h0
  refine ⟨?_, hnoA, ?_⟩
  · rw [renameEvent,
      renameLoop_ok ctx A B (st.filter (·.eventType == A)) st
        (hk.sublist (List.filter_sublist st))
        (fun m hm => ⟨m, (List.mem_filter.mp hm).1, rfl, rfl,
          beq_iff_eq.mp (List.mem_filter.mp hm).2⟩)]
    refine congrArg _ (congrArg (fun l => (l, _)) ?_)
    refine List.map_congr_left fun r hr => ?_
    rw [retag]
    cases hA : r.eventType == A with
    | true =>
      rw [if_pos (by
        rw [keyIn_filter_iff st hk A r hr]
        exact beq_iff_eq.mp hA), if_pos rfl]
    | false =>
      rw [if_neg (by
        rw [keyIn_filter_iff st hk A r hr]
        exact fun hc => by rw [hc] at hA; simp at hA),
        if_neg (by simp [hA])]
  · have hfil : (st.map (retag A B)).filter (·.eventType == A) = [] := by
      rw [List.filter_eq_nil_iff]
      intro r hr
      simp only [beq_iff_eq]
      exact hnoA r hr
    rw [renameEvent, hfil, renameLoop]

/-- Witness for C8: renaming `"OrderCreated"` to `"OrderPlaced"` over a
two-record store retags only the matching record with its key intact, and a
second run issues zero writes. -/
theorem renameEvent_idempotent_witness :
    renameEvent ⟨"d"⟩ [⟨"x", 1, "OrderCreated", none, none, 0, "AT", []⟩,
        ⟨"x", 2, "Other", none, none, 0, "AT", []⟩] "OrderCreated" "OrderPlaced" =
      (none, ([⟨"x", 1, "OrderCreated", none, none, 0, "AT", []⟩,
        ⟨"x", 2, "Other", none, none, 0, "AT", []⟩] : Store).map (retag "OrderCreated" "OrderPlaced"),
        (([⟨"x", 1, "OrderCreated", none, none, 0, "AT", []⟩,
        ⟨"x", 2, "Other", none, none, 0, "AT", []⟩] : Store).filter (·.eventType == "OrderCreated")).length) ∧
    (∀ r ∈ ([⟨"x", 1, "OrderCreated", none, none, 0, "AT", []⟩,
        ⟨"x", 2, "Other", none, none, 0, "AT", []⟩] : Store).map (retag "OrderCreated" "OrderPlaced"),
      r.eventType ≠ "OrderCreated") ∧
    renameEvent ⟨"d"⟩ (([⟨"x", 1, "OrderCreated", none, none, 0, "AT", []⟩,
        ⟨"x", 2, "Other", none, none, 0, "AT", []⟩] : Store).map (retag "OrderCreated" "OrderPlaced"))
      "OrderCreated" "OrderPlaced" =
      (none, ([⟨"x", 1, "OrderCreated", none, none, 0, "AT", []⟩,
        ⟨"x", 2, "Other", none, none, 0, "AT", []⟩] : Store).map (retag "OrderCreated" "OrderPlaced"), 0) := by
  refine renameEvent_idempotent ⟨"d"⟩ _ "OrderCreated" "OrderPlaced" ?_ (by decide)
  refine List.Pairwise.cons ?_ (List.pairwise_singleton _ _)
  intro b hb
  simp only [List.mem_singleton] at hb
  subst hb
  intro hc
  exact absurd hc.2 (by decide)

/-! ## Claim C9 -/

theorem savePutError_ns (n : String) (e : DynError) :
    carriesNamespace (savePutError n e) = some n := by
  rw [savePutError]
  split <;> rfl

theorem newDBEvent_error_ns (ctx : Ctx) (ev : Event) (e : StoreErr)
    (h : newDBEvent ctx ev = .error e) : carriesNamespace e = some ctx.ns := by
  rw [newDBEvent] at h
  split at h
  · cases h
  · split at h
    · exact (Except.error.inj h) ▸ rfl
    · cases h

theorem saveLoop_err_ns (ctx : Ctx) (id : String) :
    ∀ (evs : List Event) (v : Int) (st : Store) (err : StoreErr) (st' : Store),
    saveLoop ctx id v st evs = (some err, st') → carriesNamespace err = some ctx.ns
  | [], v, st, err, st', h => by simp [saveLoop] at h
  | ev :: rest, v, st, err, st', h => by
    rw [saveLoop] at h
    split at h
    · obtain ⟨h2, -⟩ := Prod.mk.injEq .. ▸ h
      exact (Option.some.inj h2) ▸ rfl
    · split at h
      · obtain ⟨h2, -⟩ := Prod.mk.injEq .. ▸ h
        exact (Option.some.inj h2) ▸ rfl
      · split at h
        · rename_i e he
          obtain ⟨h2, -⟩ := Prod.mk.injEq .. ▸ h
          exact (Option.some.inj h2) ▸ newDBEvent_error_ns ctx ev e he
        · split at h
          · rename_i e _
            obtain ⟨h2, -⟩ := Prod.mk.injEq .. ▸ h
            exact (Option.some.inj h2) ▸ savePutError_ns ctx.ns e
          · exact saveLoop_err_ns ctx id rest (v + 1) _ err st' h

theorem handlerLoop_err_ns (ctx : Ctx) (hf : Event → Option String) :
    ∀ (evs : List Event) (err : StoreErr),
    handlerLoop ctx hf evs = some err → carriesNamespace err = some ctx.ns
  | [], err, h => by simp [handlerLoop] at h
  | ev :: rest, err, h => by
    rw [handlerLoop] at h
    split at h
    · exact (Option.some.inj h) ▸ rfl
    · exact handlerLoop_err_ns ctx hf rest err h

theorem buildEvents_err_ns (reg : Registry) (ctx : Ctx) :
    ∀ (l : List DBEvent) (err : StoreErr),
    buildEvents reg ctx l = .error err → carriesNamespace err = some ctx.ns
  | [], err, h => by simp [buildEvents] at h
  | r :: rest, err, h => by
    rw [buildEvents] at h
    split at h
    · rename_i e he
      rw [decodeDBEvent_error_eq reg ctx r e he] at h
      exact (Except.error.inj h) ▸ rfl
    · split at h
      · rename_i e he
        exact (Except.error.inj h) ▸ buildEvents_err_ns reg ctx rest e he
      · cases h

theorem renameLoop_err_ns (ctx : Ctx) (fromT toT : String) :
    ∀ (ms : List DBEvent) (st : Store) (err : StoreErr) (st' : Store) (n : Nat),
    renameLoop ctx fromT toT st ms = (some err, st', n) →
    carriesNamespace err = some ctx.ns
  | [], st, err, st', n, h => by simp [renameLoop] at h
  | m :: ms, st, err, st', n, h => by
    rw [renameLoop] at h
    split at h
    · obtain ⟨h2, -⟩ := Prod.mk.injEq .. ▸ h
      exact (Option.some.inj h2) ▸ rfl
    · rcases hout : renameLoop ctx fromT toT _ ms with ⟨o1, o2, o3⟩
      rw [hout] at h
      obtain ⟨h2, -⟩ := Prod.mk.injEq .. ▸ h
      have h2' : o1 = some err := h2
      exact renameLoop_err_ns ctx fromT toT ms _ err o2 o3 (h2' ▸ hout)

/-- Counterexample to C9 as stated: `Replace` on an aggregate with zero
records returns the bare sentinel `eh.ErrAggregateNotFound`, which carries
no namespace (and no underlying error). -/
theorem error_namespace_cex :
    (replace ⟨"tenant"⟩ [] ⟨"E", none, 0, "AT", "a", 1, []⟩).1 =
      some (.sentinel .aggregateNotFound) ∧
    carriesNamespace (.sentinel .aggregateNotFound) = none :=
  ⟨rfl, rfl⟩

/-- C9 amended: every error returned by `Save`, `Load`, `LoadAll` and
`RenameEvent` carries the namespace resolved from the caller's context;
`Replace`'s errors do too, except that a zero-record aggregate is reported
as the bare sentinel `eh.ErrAggregateNotFound` and a failed replace
precondition as the bare sentinel `eh.ErrInvalidEvent`, both carrying
neither namespace nor underlying error. -/
theorem error_namespace_amended (es : EventStore) (ctx : Ctx) (st : Store) :
    (∀ (events : List Event) (v : Int) (err : StoreErr) (st' : Store),
      save es ctx st events v = (some err, st') →
      carriesNamespace err = some ctx.ns) ∧
    (∀ (id : String) (err : StoreErr), load es ctx st id = .error err →
      carriesNamespace err = some ctx.ns) ∧
    (∀ err : StoreErr, loadAll es ctx st = .error err →
      carriesNamespace err = some ctx.ns) ∧
    (∀ (a b : String) (err : StoreErr) (st' : Store) (n : Nat),
      renameEvent ctx st a b = (some err, st', n) →
      carriesNamespace err = some ctx.ns) ∧
    (∀ (ev : Event) (err : StoreErr) (st' : Store),
      replace ctx st ev = (some err, st') →
      err = .sentinel .aggregateNotFound ∨ err = .sentinel .invalidEvent ∨
        carriesNamespace err = some ctx.ns) := by
  refine ⟨?_, ?_, ?_, ?_, ?_⟩
  · intro events v err st' h
    match events with
    | [] =>
      rw [save] at h
      obtain ⟨h2, -⟩ := Prod.mk.injEq .. ▸ h
      exact (Option.some.inj h2) ▸ rfl
    | e0 :: rest =>
      rw [save] at h
      split at h
      · rename_i e st2 heq
        obtain ⟨h2, -⟩ := Prod.mk.injEq .. ▸ h
        have h2' : e = err := Option.some.inj h2
        exact saveLoop_err_ns ctx e0.aggregateID (e0 :: rest) v st err st2 (h2' ▸ heq)
      · split at h
        · obtain ⟨h2, -⟩ := Prod.mk.injEq .. ▸ h
          exact Option.noConfusion h2
        · rename_i hfn hfe
          obtain ⟨h2, -⟩ := Prod.mk.injEq .. ▸ h
          exact handlerLoop_err_ns ctx hfn (e0 :: rest) err h2
  · intro id err h
    exact buildEvents_err_ns es.reg ctx (queryByID st id) err h
  · intro err h
    exact buildEvents_err_ns es.reg ctx st err h
  · intro a b err st' n h
    exact renameLoop_err_ns ctx a b (st.filter (·.eventType == a)) st err st' n h
  · intro ev err st' h
    rw [replace] at h
    split at h
    · obtain ⟨h2, -⟩ := Prod.mk.injEq .. ▸ h
      exact Or.inl (Option.some.inj h2).symm
    · split at h
      · rename_i e he
        obtain ⟨h2, -⟩ := Prod.mk.injEq .. ▸ h
        exact Or.inr (Or.inr ((Option.some.inj h2) ▸ newDBEvent_error_ns ctx ev e he))
      · split at h
        · split at h
          · obtain ⟨h2, -⟩ := Prod.mk.injEq .. ▸ h
            exact Or.inr (Or.inl (Option.some.inj h2).symm)
          · obtain ⟨h2, -⟩ := Prod.mk.injEq .. ▸ h
            exact Or.inr (Or.inr ((Option.some.inj h2) ▸ rfl))
        · obtain ⟨h2, -⟩ := Prod.mk.injEq .. ▸ h
          exact Option.noConfusion h2

/-- Witness for C9 amended: the empty-batch save error and a rename-scan
error both carry the caller's namespace, applied at concrete inputs. -/
theorem error_namespace_amended_witness :
    carriesNamespace (.storeErr ⟨.noEventsToAppend, none, "tenant"⟩) = some "tenant" :=
  (error_namespace_amended ⟨fun _ => none, none⟩ ⟨"tenant"⟩ []).1 [] 0
    (.storeErr ⟨.noEventsToAppend, none, "tenant"⟩) [] rfl

/-! ## Claim C10 -/

/-- C10: whatever error the underlying Get returns — the collaborator's
not-found error when the entity is absent, or any transport failure —
`Repo.Find` wraps it as an `eh.RepoError` whose `Err` field is
`eh.ErrEntityNotFound` (the Get's own error only in `BaseErr`), so the error
kind cannot tell a missing entity from a storage failure. -/
theorem find_error_entity_not_found (ctx : Ctx) (e : DynError) :
    Repo.find ctx true (.error e) = .error ⟨.entityNotFound, some e, ctx.ns⟩ ∧
    (Repo.find ctx true (.error .notFound)).mapError RepoError.err =
      (Repo.find ctx true (.error e)).mapError RepoError.err :=
  ⟨rfl, rfl⟩
